import Mathlib

/-!
Shallow embedding of the metric-computation core of `src/utils/metric.py`
(registration-evaluation metrics: displacement, intensity, Jacobian
regularity and segmentation metrics), together with theorems settling the
claims about it.

Modelling conventions:
* numpy arrays are embedded as `NArr`: a shape together with a total data
  function from index lists to `ℚ` (values at indices outside the shape are
  representation junk and never influence any metric value, which only reads
  in-bounds indices).
* Python floats are modelled as exact rationals; `np.sqrt` is modelled by
  `ratSqrt`, which is exact on perfect-square rationals (every square root
  taken in a theorem below is of a perfect square).
* Python exceptions (KeyError on a missing dict key or an unknown metric
  group, the numpy broadcast ValueError, the AssertionError of
  `contour_distances_stack`) are modelled with `Except String`.
* Euclidean distances between contour points are represented by their
  squares (`dist2`), so the physical-spacing factor `dx` becomes `dx ^ 2`;
  squaring is strictly monotone on nonnegative reals, and max/min commute
  with the square root, so equalities and inequalities between the distances
  of the code correspond exactly to those between the squared values proved
  here.
-/

/-- Arithmetic mean of a list of rationals (`np.mean` of a 1D array);
the empty list yields `0 / 0 = 0` in `ℚ` where numpy yields NaN. -/
def listMean (l : List ℚ) : ℚ := l.sum / (l.length : ℚ)

/-- Minimum of a list (`np.min`); junk value `0` on the empty list, on which
numpy would raise. -/
def listMinQ : List ℚ → ℚ
  | [] => 0
  | x :: xs => xs.foldl min x

/-- Maximum of a list (`np.max`); junk value `0` on the empty list. -/
def listMaxQ : List ℚ → ℚ
  | [] => 0
  | x :: xs => xs.foldl max x

/-- Exact natural square root: the unique `k` with `k * k = n` when `n` is a
perfect square, `0` otherwise (found by bounded search, so that it evaluates
by kernel reduction). -/
def natSqrtExact (n : ℕ) : ℕ := (((List.range (n + 1)).find? fun k => k * k == n).getD 0)

/-- Model of `np.sqrt` on rationals: exact on perfect-square rationals
(numerator and denominator of the reduced form both perfect squares), junk
otherwise.  Every application in the theorems below is at a perfect square. -/
def ratSqrt (q : ℚ) : ℚ :=
  if q.num < 0 then 0 else (natSqrtExact q.num.toNat : ℚ) / (natSqrtExact q.den : ℚ)

/-- A numpy ndarray: a shape (list of axis sizes) and a total data function.
Only values at in-bounds indices (see `allIndices`) are meaningful. -/
structure NArr where
  shape : List ℕ
  data : List ℕ → ℚ

/-- All in-bounds index lists of a shape, in row-major order. -/
def allIndices : List ℕ → List (List ℕ)
  | [] => [[]]
  | n :: rest => (List.range n).flatMap fun i => (allIndices rest).map fun ix => i :: ix

/-- Number of elements of a shape (`np.prod(shape)` / `ndarray.size`). -/
def numel (s : List ℕ) : ℕ := s.foldr (· * ·) 1

/-- Sum of all entries of an array (`ndarray.sum()`). -/
def nsum (x : NArr) : ℚ := ((allIndices x.shape).map x.data).sum

/-- Mean of all entries of an array (`ndarray.mean()` = sum / size). -/
def nmean (x : NArr) : ℚ := nsum x / (numel x.shape : ℚ)

/-- Elementwise application of a scalar function (numpy ufunc on one array). -/
def nmap (f : ℚ → ℚ) (x : NArr) : NArr := ⟨x.shape, fun ix => f (x.data ix)⟩

/-- One axis of the numpy broadcasting rule: sizes must be equal or one of
them must be `1` (numpy broadcasting documentation). -/
def bAxisB (a b : ℕ) : Option ℕ :=
  if a = b then some a else if a = 1 then some b else if b = 1 then some a else none

/-- Broadcast two shapes given with their axes reversed (least significant
axis first); the shorter shape is implicitly padded with `1`s. -/
def bShapeRev : List ℕ → List ℕ → Option (List ℕ)
  | [], t => some t
  | a :: s, [] => some (a :: s)
  | a :: s, b :: t =>
    match bAxisB a b, bShapeRev s t with
    | some c, some rest => some (c :: rest)
    | _, _ => none

/-- The numpy broadcast of two shapes: right-aligned axis-wise combination,
`none` when the shapes are not broadcast-compatible. -/
def bShape (s t : List ℕ) : Option (List ℕ) :=
  match bShapeRev s.reverse t.reverse with
  | some r => some r.reverse
  | none => none

/-- Map an index of the broadcast result shape to an index of an input array
of shape `s`: drop the extra leading axes and clamp the coordinate of every
size-1 axis to `0`. -/
def bIndex (s : List ℕ) (ix : List ℕ) : List ℕ :=
  (s.zip (ix.drop (ix.length - s.length))).map fun p => if p.1 = 1 then 0 else p.2

/-- A binary numpy ufunc with broadcasting: fails (ValueError) exactly when
the shapes are not broadcast-compatible. -/
def npBinop (f : ℚ → ℚ → ℚ) (x y : NArr) : Except String NArr :=
  match bShape x.shape y.shape with
  | some s => .ok ⟨s, fun ix => f (x.data (bIndex x.shape ix)) (y.data (bIndex y.shape ix))⟩
  | none => .error "ValueError: operands could not be broadcast together"

/-- numpy subtraction `x - y` with broadcasting. -/
def npSub (x y : NArr) : Except String NArr := npBinop (fun a b => a - b) x y

/-- numpy multiplication `x * y` with broadcasting. -/
def npMul (x y : NArr) : Except String NArr := npBinop (fun a b => a * b) x y

/-- numpy addition `x + y` with broadcasting. -/
def npAdd (x y : NArr) : Except String NArr := npBinop (fun a b => a + b) x y

/-- `ndarray.sum(axis=1)`: sums away the second axis. Arrays of rank below 2
are returned unchanged (never the case in the embedded code). -/
def sumAxis1 (x : NArr) : NArr :=
  match x.shape with
  | s0 :: s1 :: rest =>
    ⟨s0 :: rest, fun ix =>
      match ix with
      | i0 :: irest => ((List.range s1).map fun c => x.data (i0 :: c :: irest)).sum
      | [] => 0⟩
  | _ => x

/-- `ndarray.sum(axis=(0, 1))`: sums away the first two axes. -/
def sumAxes01 (x : NArr) : NArr :=
  match x.shape with
  | s0 :: s1 :: rest =>
    ⟨rest, fun ix =>
      ((List.range s0).flatMap fun i => (List.range s1).map fun j => x.data (i :: j :: ix)).sum⟩
  | _ => x

/-- `calculate_aee` (metric.py lines 92-97): average end-point error,
`np.sqrt(((x - y) ** 2).sum(axis=1)).mean()` — mean over points of the
per-point L2 norm of the difference. -/
def calculate_aee (x y : NArr) : Except String ℚ :=
  match npSub x y with
  | .ok d => .ok (nmean (nmap ratSqrt (sumAxis1 (nmap (fun q => q ^ 2) d))))
  | .error e => .error e

/-- `calculate_rmse_dvf` (metric.py lines 100-105): RMSE of the DVF,
`np.sqrt(((x - y) ** 2).sum(axis=1).mean())` — square root after averaging
the squared norms. -/
def calculate_rmse_dvf (x y : NArr) : Except String ℚ :=
  match npSub x y with
  | .ok d => .ok (ratSqrt (nmean (sumAxis1 (nmap (fun q => q ^ 2) d))))
  | .error e => .error e

/-- `calculate_rmse` (metric.py lines 112-116): standard intensity RMSE,
`np.sqrt(((x - y) ** 2).mean())`. -/
def calculate_rmse (x y : NArr) : Except String ℚ :=
  match npSub x y with
  | .ok d => .ok (ratSqrt (nmean (nmap (fun q => q ^ 2) d)))
  | .error e => .error e

/-- One-dimensional finite difference along a line of samples, in the style
of `np.gradient` and of the central-difference scheme of the SimpleITK
Jacobian filter: one-sided at the two borders, central (divided by 2) in the
interior. -/
def fd (f : ℕ → ℚ) (size i : ℕ) : ℚ :=
  if i = 0 then f 1 - f 0
  else if i = size - 1 then f (size - 1) - f (size - 2)
  else (f (i + 1) - f (i - 1)) / 2

/-- `calculate_jacobian_det` (metric.py lines 157-170), modelled from the
SimpleITK documentation of `DisplacementFieldJacobianDeterminant` for the 2D
case: the determinant of `I + grad(u)` at every grid point of sample `n`,
with the spatial gradient taken by finite differences (`fd`).  The input is
the batch DVF of shape `(N, 2, H, W)`; the `moveaxis` of the source is
folded into the component indexing.  The claims proved about it concern
constant fields, for which every finite-difference scheme gives the same
(zero) gradient. -/
def calculate_jacobian_det (dvf : NArr) (n i j : ℕ) : ℚ :=
  let H := dvf.shape.getD 2 0
  let W := dvf.shape.getD 3 0
  let d00 := fd (fun k => dvf.data [n, 0, k, j]) H i
  let d01 := fd (fun k => dvf.data [n, 0, i, k]) W j
  let d10 := fd (fun k => dvf.data [n, 1, k, j]) H i
  let d11 := fd (fun k => dvf.data [n, 1, i, k]) W j
  (1 + d00) * (1 + d11) - d01 * d10

/-- `calculate_jacobian_metrics` (metric.py lines 135-154): per sample, the
fraction of grid points with negative Jacobian determinant (the boolean sum
`(jac_det_n < 0).sum()` is written as a sum of 0/1 indicators) and the mean
absolute value of `np.gradient` of the determinant field (mean over the two
stacked gradient arrays); both are then averaged over the samples. -/
def calculate_jacobian_metrics (dvf : NArr) : ℚ × ℚ :=
  let N := dvf.shape.getD 0 0
  let H := dvf.shape.getD 2 0
  let W := dvf.shape.getD 3 0
  let jd := calculate_jacobian_det dvf
  let foldings := (List.range N).map fun n =>
    (((List.range H).flatMap fun i => (List.range W).map fun j =>
        if jd n i j < 0 then (1 : ℚ) else 0).sum) / ((H : ℚ) * (W : ℚ))
  let grads := (List.range N).map fun n =>
    ((((List.range H).flatMap fun i => (List.range W).map fun j =>
        |fd (fun k => jd n k j) H i|).sum)
      + (((List.range H).flatMap fun i => (List.range W).map fun j =>
        |fd (fun k => jd n i k) W j|).sum))
      / (2 * (H : ℚ) * (W : ℚ))
  (listMean foldings, listMean grads)

/-- Inclusive-start/exclusive-end range of a coordinate list: minimal
interval containing all coordinates, or the full `[0, size)` extent when the
list is empty. -/
def axisRange (coords : List ℕ) (size : ℕ) : ℕ × ℕ :=
  match coords with
  | [] => (0, size)
  | c :: cs => (cs.foldl min c, cs.foldl max c + 1)

/-- Modelled from the spec: `bbox_from_mask` lives in `utils/image.py`,
which is not part of the sources; per section 4.1 it takes a mask of shape
`(count, *spatial)` and returns the minimal axis-aligned bounding box of the
non-zero voxels over the spatial axes, together with a non-emptiness flag.
The box is modelled as a single box per spatial axis (coordinates collected
across the sample axis); for an empty mask the box degenerates to the full
extent, one of the policies section 4.1 allows. -/
def bbox_from_mask (mask : NArr) : List (ℕ × ℕ) × Bool :=
  let nz := (allIndices mask.shape).filter fun ix => decide (mask.data ix ≠ 0)
  ((mask.shape.drop 1).mapIdx fun k size =>
      axisRange (nz.map fun ix => ix.getD (k + 1) 0) size,
   decide (nz ≠ []))

/-- Modelled from the spec: `bbox_crop` of `utils/image.py` (section 4.1)
restricts an array of shape `(sample, channel, *spatial)` to the box over
its spatial axes.  `cropMap` sends an index of the cropped array to the
corresponding index of the source array (spatial coordinates shifted by the
box starts). -/
def cropMap (bbox : List (ℕ × ℕ)) (ix : List ℕ) : List ℕ :=
  ix.take 2 ++ ((bbox.zip (ix.drop 2)).map fun p => p.2 + p.1.1)

/-- Continuation of `bbox_crop`: the cropped array, whose spatial sizes are
the box extents and whose entries are read through `cropMap`. -/
def bbox_crop (x : NArr) (bbox : List (ℕ × ℕ)) : NArr :=
  ⟨x.shape.take 2 ++ bbox.map (fun p => p.2 - p.1), fun ix => x.data (cropMap bbox ix)⟩

/-- The slice `arr[:, 0, ...]` used on the ROI mask before computing its
bounding box. -/
def selectAxis1Zero (x : NArr) : NArr :=
  match x.shape with
  | s0 :: _ :: rest =>
    ⟨s0 :: rest, fun ix =>
      match ix with
      | i0 :: irest => x.data (i0 :: 0 :: irest)
      | [] => 0⟩
  | _ => x

/-- The metric-data dictionary of `metrics_fn`: a Python dict with a fixed
set of possible keys, modelled as optional fields (`none` = key absent). -/
structure MetricData where
  target : Option NArr
  target_pred : Option NArr
  dvf_pred : Option NArr
  dvf_gt : Option NArr
  roi_mask : Option NArr

/-- Dictionary lookup `metric_data[key]`: raises `KeyError` when absent. -/
def getKey (o : Option NArr) (key : String) : Except String NArr :=
  match o with
  | some a => .ok a
  | none => .error ("KeyError: " ++ key)

/-- The metric dictionary built by `dvf_metrics_fn` (metric.py lines 59-66)
from an already-masked/cropped DVF pair: Jacobian metrics, AEE and RMSE. -/
def dvf_metrics_core (dvf_pred dvf_gt : NArr) : Except String (List (String × ℚ)) :=
  let jm := calculate_jacobian_metrics dvf_pred
  match calculate_aee dvf_pred dvf_gt, calculate_rmse_dvf dvf_pred dvf_gt with
  | .ok aee, .ok rmse =>
    .ok [("aee", aee), ("rmse_dvf", rmse), ("folding_ratio", jm.1), ("mean_negative_detJ", jm.2)]
  | .error e, _ => .error e
  | _, .error e => .error e

/-- `dvf_metrics_fn` (metric.py lines 29-66): unpacks `dvf_pred`/`dvf_gt`;
when `roi_mask` is present, computes the mask bounding box, multiplies both
DVFs by the mask and crops them to the box, then computes the DVF metrics. -/
def dvf_metrics_fn (md : MetricData) : Except String (List (String × ℚ)) :=
  match getKey md.dvf_pred "dvf_pred", getKey md.dvf_gt "dvf_gt" with
  | .ok dvf_pred, .ok dvf_gt =>
    match md.roi_mask with
    | some roi_mask =>
      let bb := bbox_from_mask (selectAxis1Zero roi_mask)
      match npMul dvf_pred roi_mask, npMul dvf_gt roi_mask with
      | .ok mp, .ok mg => dvf_metrics_core (bbox_crop mp bb.1) (bbox_crop mg bb.1)
      | .error e, _ => .error e
      | _, .error e => .error e
    | none => dvf_metrics_core dvf_pred dvf_gt
  | .error e, _ => .error e
  | _, .error e => .error e

/-- `image_metrics_fn` (metric.py lines 69-84): unpacks `target` and
`target_pred`; when `roi_mask` is present, computes the mask bounding box
and crops both images to it — the source contains no multiplication by the
mask — then returns the intensity RMSE. -/
def image_metrics_fn (md : MetricData) : Except String (List (String × ℚ)) :=
  match getKey md.target "target", getKey md.target_pred "target_pred" with
  | .ok img, .ok img_pred =>
    match md.roi_mask with
    | some roi_mask =>
      let bb := bbox_from_mask (selectAxis1Zero roi_mask)
      match calculate_rmse (bbox_crop img bb.1) (bbox_crop img_pred bb.1) with
      | .ok v => .ok [("rmse", v)]
      | .error e => .error e
    | none =>
      match calculate_rmse img img_pred with
      | .ok v => .ok [("rmse", v)]
      | .error e => .error e
  | .error e, _ => .error e
  | _, .error e => .error e

/-- Written from the words of the spec (sections 4.3 and 4.4), for
comparison with `image_metrics_fn`: when a ROI mask is present the images
are first multiplied by the mask and then cropped to the mask bounding box,
before the RMSE is computed. -/
def image_metrics_spec (md : MetricData) : Except String (List (String × ℚ)) :=
  match getKey md.target "target", getKey md.target_pred "target_pred" with
  | .ok img, .ok img_pred =>
    match md.roi_mask with
    | some roi_mask =>
      let bb := bbox_from_mask (selectAxis1Zero roi_mask)
      match npMul img roi_mask, npMul img_pred roi_mask with
      | .ok mi, .ok mp =>
        match calculate_rmse (bbox_crop mi bb.1) (bbox_crop mp bb.1) with
        | .ok v => .ok [("rmse", v)]
        | .error e => .error e
      | .error e, _ => .error e
      | _, .error e => .error e
    | none =>
      match calculate_rmse img img_pred with
      | .ok v => .ok [("rmse", v)]
      | .error e => .error e
  | .error e, _ => .error e
  | _, .error e => .error e

/-- The dispatch table `metric_group_fns` of `metrics_fn` (metric.py lines
21-22): exactly the two groups `dvf_metrics` and `image_metrics`. -/
def metric_group_fns (g : String) : Option (MetricData → Except String (List (String × ℚ))) :=
  if g = "dvf_metrics" then some dvf_metrics_fn
  else if g = "image_metrics" then some image_metrics_fn
  else none

/-- `metrics_fn` (metric.py lines 8-26): iterates the requested group names
in order, looking each up in `metric_group_fns` and invoking it on the
batch.  The first component of the result is the trace of group functions
actually invoked (the observable side effect of reading the batch arrays and
computing that group), made explicit because the Python loop performs it
before an unknown name raises `KeyError`; the second component is the
returned result dictionary or the first exception. -/
def metrics_fn (md : MetricData) : List String → List String × Except String (List (String × ℚ))
  | [] => ([], .ok [])
  | g :: gs =>
    match metric_group_fns g with
    | none => ([], .error ("KeyError: " ++ g))
    | some f =>
      match f md with
      | .error e => ([g], .error e)
      | .ok r =>
        let rest := metrics_fn md gs
        (g :: rest.1, rest.2.map fun tail => r ++ tail)

/-- Whether an `Except` computation succeeded. -/
def okB {α : Type} (e : Except String α) : Bool :=
  match e with
  | .ok _ => true
  | .error _ => false

/-- Right-aligned axis size of a shape, with implicit `1`-padding beyond the
rank (for stating the numpy broadcast-compatibility rule). -/
def rgetOne (s : List ℕ) (k : ℕ) : ℕ := s.reverse.getD k 1

/-- The numpy broadcast rule for one axis pair, as a proposition: the sizes
agree or one of them is `1`. -/
def bcompatAx (a b : ℕ) : Prop := a = b ∨ a = 1 ∨ b = 1

instance (a b : ℕ) : Decidable (bcompatAx a b) := by unfold bcompatAx; infer_instance

/-- `(mask == label_class).astype(np.float32)` of the Dice functions. -/
def posMaskN (mask : NArr) (label_class : ℚ) : NArr :=
  ⟨mask.shape, fun ix => if mask.data ix = label_class then 1 else 0⟩

/-- `categorical_dice_stack` (metric.py lines 263-288): per-slice Dice over
an `(H, W, N)` stack — per-slice intersection and total sums (axes `(0,1)`),
per-slice score `2 * inter / (total + 1e-3)` with the numerical-stability
constant `1e-3` added to every denominator, then the mean over slices.
`dice_stack_val` is the value computed once the two elementwise arrays are
built. -/
def dice_stack_val (inter tot : NArr) : ℚ :=
  let pos1and2 := sumAxes01 inter
  let pos1or2 := sumAxes01 tot
  nmean ⟨pos1and2.shape, fun ix => 2 * pos1and2.data ix / (pos1or2.data ix + 1 / 1000)⟩

/-- `categorical_dice_stack` continued: the guarded application of
`dice_stack_val` to the intersection and total arrays. -/
def categorical_dice_stack (mask1 mask2 : NArr) (label_class : ℚ) : Except String ℚ :=
  let mask1_pos := posMaskN mask1 label_class
  let mask2_pos := posMaskN mask2 label_class
  match npMul mask1_pos mask2_pos, npAdd mask1_pos mask2_pos with
  | .ok inter, .ok tot => .ok (dice_stack_val inter tot)
  | .error e, _ => .error e
  | _, .error e => .error e

/-- Numerator `2 * np.sum(mask1_pos * mask2_pos)` of
`categorical_dice_volume` (metric.py line 307). -/
def dice_vol_num (mask1 mask2 : NArr) (label_class : ℚ) : Except String ℚ :=
  match npMul (posMaskN mask1 label_class) (posMaskN mask2 label_class) with
  | .ok inter => .ok (2 * nsum inter)
  | .error e => .error e

/-- Denominator `np.sum(mask1_pos) + np.sum(mask2_pos)` of
`categorical_dice_volume` (metric.py line 307); no stability constant is
added to it. -/
def dice_vol_den (mask1 mask2 : NArr) (label_class : ℚ) : ℚ :=
  nsum (posMaskN mask1 label_class) + nsum (posMaskN mask2 label_class)

/-- `categorical_dice_volume` (metric.py lines 291-308): global Dice of a
volume, `2 * sum(inter) / (sum(pos1) + sum(pos2))`, the division unguarded
(in `ℚ` the 0/0 case collapses to `0` where numpy produces NaN; the
operands of that division are exposed by `dice_vol_num`/`dice_vol_den`). -/
def categorical_dice_volume (mask1 mask2 : NArr) (label_class : ℚ) : Except String ℚ :=
  match dice_vol_num mask1 mask2 label_class with
  | .ok n => .ok (n / dice_vol_den mask1 mask2 label_class)
  | .error e => .error e

/-- Pixel value of a 2D mask given as a list of rows (`img[y][x]`), `0`
outside. -/
def cvVal (img : List (List ℕ)) (y x : ℕ) : ℕ := (img.getD y []).getD x 0

/-- Whether pixel `(x, y)` is a foreground pixel on the region boundary:
foreground with a 4-neighbour that is background or outside the image. -/
def isBoundary (img : List (List ℕ)) (y x : ℕ) : Bool :=
  (cvVal img y x != 0) &&
    ((cvVal img y (x + 1) == 0) || (x == 0) || (cvVal img y (x - 1) == 0) ||
      (cvVal img (y + 1) x == 0) || (y == 0) || (cvVal img (y - 1) x == 0))

/-- Modelled from the cv2 documentation: `cv2.findContours` with
`RETR_EXTERNAL` and `CHAIN_APPROX_NONE` returns all pixels on the outer
boundaries of the foreground components, as `(x, y)` (column, row) points;
for masks without interior holes those are exactly the foreground pixels
with a background 4-neighbour or on the image border.  The source stacks the
points of all contours into one `(N, 2)` point set, which is what is
returned here. -/
def findContours (img : List (List ℕ)) : List (ℤ × ℤ) :=
  (List.range img.length).flatMap fun y =>
    (List.range (img.getD y []).length).filterMap fun x =>
      if isBoundary img y x then some ((x : ℤ), (y : ℤ)) else none

/-- Squared Euclidean distance between two integer points (the square of the
`np.linalg.norm` used to fill the distance matrix). -/
def dist2 (p q : ℤ × ℤ) : ℚ := (((p.1 - q.1) ^ 2 + (p.2 - q.2) ^ 2 : ℤ) : ℚ)

/-- Modelled from the scipy documentation:
`scipy.spatial.distance.directed_hausdorff(u, v)[0]` is the directed
Hausdorff distance `max over p in u of (min over q in v of d(p, q))` (the
early-termination algorithm computes exactly this value); represented here
on squared distances. -/
def directed_hausdorff (u v : List (ℤ × ℤ)) : ℚ :=
  listMaxQ (u.map fun p => listMinQ (v.map fun q => dist2 p q))

/-- The symmetrized Hausdorff distance as the words of the spec define it
(glossary and section 4.5): the larger of the two directed distances.
Written from the spec, for comparison with `contour_distances_2d`. -/
def hausdorff_symmetrized_spec (u v : List (ℤ × ℤ)) : ℚ :=
  max (directed_hausdorff u v) (directed_hausdorff v u)

/-- `contour_distances_2d` (metric.py lines 178-223): extracts the two
contour point sets, builds the pairwise distance matrix, returns the
symmetric mean contour distance (average of the two directed mean
nearest-neighbour distances, i.e. the means of the column minima and of the
row minima) and the Hausdorff distance computed as
`directed_hausdorff(contour1_pts, contour2_pts)[0]`, both scaled by the
pixel spacing (squared distances, hence the factor `dx ^ 2`). -/
def contour_distances_2d (image1 image2 : List (List ℕ)) (dx : ℚ) : ℚ × ℚ :=
  let contour1_pts := findContours image1
  let contour2_pts := findContours image2
  let mean_contour_dist := (1 / 2) *
    (listMean (contour2_pts.map fun q => listMinQ (contour1_pts.map fun p => dist2 p q))
      + listMean (contour1_pts.map fun p => listMinQ (contour2_pts.map fun q => dist2 p q)))
  let hausdorff_dist := directed_hausdorff contour1_pts contour2_pts
  (mean_contour_dist * dx ^ 2, hausdorff_dist * dx ^ 2)

/-- Total pixel sum of a 2D mask (`np.sum` of one slice). -/
def sliceSum (s : List (List ℕ)) : ℕ := (s.map fun row => row.sum).sum

/-- `(stack == label_class).astype(uint8)` applied slice-wise. -/
def maskByClass (label_class : ℕ) (s : List (List ℕ)) : List (List ℕ) :=
  s.map (List.map fun v => if v = label_class then 1 else 0)

/-- The slice loop of `contour_distances_stack` (metric.py lines 248-258):
walks the paired slices in order, appending the two distances of
`contour_distances_2d` to the buffers only when both masked slices are
non-empty, skipping the slice otherwise. -/
def contourStackLoop (dx : ℚ) : List (List (List ℕ) × List (List ℕ)) → List ℚ × List ℚ
  | [] => ([], [])
  | (slice1, slice2) :: rest =>
    let bufs := contourStackLoop dx rest
    if 0 < sliceSum slice1 ∧ 0 < sliceSum slice2 then
      let r := contour_distances_2d slice1 slice2 dx
      (r.1 :: bufs.1, r.2 :: bufs.2)
    else bufs

/-- `contour_distances_stack` (metric.py lines 226-260): asserts equal slice
counts (`AssertionError` modelled as `Except.error`), masks both stacks by
the label class, runs the slice loop and returns the means of the two
buffers.  A stack of shape `(W, H, N)` is represented by the list of its `N`
2D slices, matching the per-slice access `stack[:, :, slice_idx]`. -/
def contour_distances_stack (stack1 stack2 : List (List (List ℕ)))
    (label_class : ℕ) (dx : ℚ) : Except String (ℚ × ℚ) :=
  if stack1.length = stack2.length then
    let s1 := stack1.map (maskByClass label_class)
    let s2 := stack2.map (maskByClass label_class)
    let bufs := contourStackLoop dx (s1.zip s2)
    .ok (listMean bufs.1, listMean bufs.2)
  else .error "Contour dist error: two stacks has different number of slices"

/-! Concrete arrays used by the witnesses and counterexamples below. -/

/-- DVF prediction of the section 8 scenario: shape `(1, 2, 4, 4)`, equal to
the ground truth everywhere except the grid point `(0, 0)`, where the
difference vector is `(3, 0)` (magnitude 3). -/
def dvfP4 : NArr := ⟨[1, 2, 4, 4], fun ix => if ix = [0, 0, 0, 0] then 3 else 0⟩

/-- All-zero ground-truth DVF of shape `(1, 2, 4, 4)`. -/
def dvfG4 : NArr := ⟨[1, 2, 4, 4], fun _ => 0⟩

/-- DVF of shape `(1, 2, 1, 1)` whose single point is the vector `(3, 0)`. -/
def cxA5 : NArr := ⟨[1, 2, 1, 1], fun ix => if ix.getD 1 0 = 0 then 3 else 0⟩

/-- All-zero DVF of shape `(1, 2, 4, 4)`. -/
def cxB5 : NArr := ⟨[1, 2, 4, 4], fun _ => 0⟩

/-- One-slice 1x1 stack whose only pixel carries label 1. -/
def mStack1 : NArr := ⟨[1, 1, 1], fun _ => 1⟩

/-- One-slice 1x1 stack whose only pixel carries label 0. -/
def mZero3 : NArr := ⟨[1, 1, 1], fun _ => 0⟩

/-- ROI mask of shape `(1, 1, 4)` covering the outer two of four voxels
(an interior gap at voxels 1 and 2), so its bounding box is the full extent. -/
def roiC2 : NArr := ⟨[1, 1, 4], fun ix => if ix = [0, 0, 0] ∨ ix = [0, 0, 3] then 1 else 0⟩

/-- Target image of shape `(1, 1, 4)`: intensity 6 at the mask-interior gap
voxel 1, zero elsewhere. -/
def imgC2 : NArr := ⟨[1, 1, 4], fun ix => if ix = [0, 0, 1] then 6 else 0⟩

/-- All-zero predicted image of shape `(1, 1, 4)`. -/
def predC2 : NArr := ⟨[1, 1, 4], fun _ => 0⟩

/-- Batch for the intensity-metric counterexample: target, prediction and a
ROI mask with an interior gap. -/
def mdC2 : MetricData := ⟨some imgC2, some predC2, none, none, some roiC2⟩

/-- All-one ROI mask of shape `(1, 1, 2)` (masking is a no-op under it). -/
def roiW2 : NArr := ⟨[1, 1, 2], fun _ => 1⟩

/-- Target image of shape `(1, 1, 2)` with intensity 2 at voxel 0. -/
def imgW2 : NArr := ⟨[1, 1, 2], fun ix => if ix = [0, 0, 0] then 2 else 0⟩

/-- All-zero predicted image of shape `(1, 1, 2)`. -/
def predW2 : NArr := ⟨[1, 1, 2], fun _ => 0⟩

/-- Batch with an all-one ROI mask. -/
def mdW2 : MetricData := ⟨some imgW2, some predW2, none, none, some roiW2⟩

/-- All-zero DVF of shape `(1, 2, 2, 2)`. -/
def dvfZ : NArr := ⟨[1, 2, 2, 2], fun _ => 0⟩

/-- Batch holding only the two DVF arrays (no ROI mask), on which the
`dvf_metrics` group computes successfully. -/
def mdC6 : MetricData := ⟨none, none, some dvfZ, some dvfZ, none⟩

/-- Constant DVF of shape `(1, 2, 2, 2)` with every component equal to 5
(a uniform translation). -/
def dvfC7 : NArr := ⟨[1, 2, 2, 2], fun _ => 5⟩

/-! General lemmas about the embedding. -/

theorem find_beq_range (m k : ℕ) :
    (List.range m).find? (fun j => j == k) = if k < m then some k else none := by
  induction m with
  | zero => simp
  | succ m ih =>
    rw [List.range_succ, List.find?_append, ih]
    by_cases h : k < m
    · simp [h, Nat.lt_succ_of_lt h]
    · by_cases h2 : k = m
      · subst h2; simp [h, Nat.lt_succ_self]
      · have h3 : ¬ k < m + 1 := by omega
        simp [h, h2, h3, Option.orElse]
        intro hmk
        omega

theorem natSqrtExact_sq (k : ℕ) : natSqrtExact (k * k) = k := by
  unfold natSqrtExact
  have hp : (fun j => j * j == k * k) = (fun j => j == k) := by
    funext j
    rw [Bool.eq_iff_iff]
    simp [Nat.mul_self_inj]
  rw [hp, find_beq_range]
  have hk : k < k * k + 1 := by
    rcases Nat.eq_zero_or_pos k with h | h
    · omega
    · have := Nat.le_mul_of_pos_left k h
      omega
  simp [hk]

theorem ratSqrt_sq (r : ℚ) (hr : 0 ≤ r) : ratSqrt (r * r) = r := by
  have hnum : (r * r).num = r.num * r.num := Rat.mul_self_num r
  have hden : (r * r).den = r.den * r.den := Rat.mul_self_den r
  have hn : 0 ≤ r.num := Rat.num_nonneg.mpr hr
  have hnn : ¬ (r * r).num < 0 := by rw [hnum]; exact not_lt.mpr (mul_nonneg hn hn)
  rw [ratSqrt, if_neg hnn, hnum, hden]
  have ht : (r.num * r.num).toNat = r.num.toNat * r.num.toNat := by
    rcases Int.eq_ofNat_of_zero_le hn with ⟨a, ha⟩
    rw [ha, ← Int.natCast_mul, Int.toNat_natCast, Int.toNat_natCast]
  rw [ht, natSqrtExact_sq, natSqrtExact_sq]
  have hc : (r.num.toNat : ℚ) = (r.num : ℚ) := by
    exact_mod_cast Int.toNat_of_nonneg hn
  rw [hc, Rat.num_div_den]

theorem ratSqrt_zero : ratSqrt 0 = 0 := by
  simpa using ratSqrt_sq 0 le_rfl

theorem ratSqrt_nine : ratSqrt 9 = 3 := by
  rw [show (9 : ℚ) = 3 * 3 by norm_num, ratSqrt_sq _ (by norm_num)]

theorem range_one : List.range 1 = [0] := by decide

theorem range_two : List.range 2 = [0, 1] := by decide

theorem range_four : List.range 4 = [0, 1, 2, 3] := by decide

theorem mem_allIndices (s : List ℕ) (ix : List ℕ) :
    ix ∈ allIndices s ↔ List.Forall₂ (fun i n => i < n) ix s := by
  induction s generalizing ix with
  | nil =>
    cases ix with
    | nil => simp [allIndices]
    | cons i tl => simp [allIndices]
  | cons n rest ih =>
    cases ix with
    | nil => simp [allIndices]
    | cons i tl =>
      simp only [allIndices, List.mem_flatMap, List.mem_map, List.mem_range,
        List.forall₂_cons]
      constructor
      · rintro ⟨a, ha, ⟨tl2, htl2, heq⟩⟩
        rw [List.cons_eq_cons] at heq
        obtain ⟨rfl, rfl⟩ := heq
        exact ⟨ha, (ih _).mp htl2⟩
      · rintro ⟨hi, htl⟩
        exact ⟨i, hi, tl, (ih tl).mpr htl, rfl⟩

theorem bShapeRev_self (l : List ℕ) : bShapeRev l l = some l := by
  induction l with
  | nil => rfl
  | cons a s ih => simp [bShapeRev, bAxisB, ih]

theorem bShape_self (s : List ℕ) : bShape s s = some s := by
  simp [bShape, bShapeRev_self]

theorem bIndex_self (s ix : List ℕ) (h : List.Forall₂ (fun i n => i < n) ix s) :
    bIndex s ix = ix := by
  have hlen : ix.length = s.length := h.length_eq
  rw [bIndex, hlen, Nat.sub_self, List.drop_zero]
  induction h with
  | nil => rfl
  | cons hab hrest ih =>
    rename_i i n tl rest
    simp only [List.zip_cons_cons, List.map_cons, List.cons.injEq]
    constructor
    · by_cases hn : n = 1
      · subst hn; simp; omega
      · simp [hn]
    · simpa using ih (by simpa using hrest.length_eq)

theorem npBinop_self (f : ℚ → ℚ → ℚ) (x y : NArr) (h : x.shape = y.shape) :
    npBinop f x y =
      .ok ⟨x.shape, fun ix => f (x.data (bIndex x.shape ix)) (y.data (bIndex y.shape ix))⟩ := by
  rw [npBinop, ← h, bShape_self]

theorem nsum_congr (x y : NArr) (hs : x.shape = y.shape)
    (h : ∀ ix ∈ allIndices x.shape, x.data ix = y.data ix) : nsum x = nsum y := by
  rw [nsum, nsum, ← hs]
  exact congrArg List.sum (List.map_congr_left h)

theorem list_sum_zero (l : List ℚ) (h : ∀ x ∈ l, x = 0) : l.sum = 0 := by
  induction l with
  | nil => rfl
  | cons a t ih =>
    rw [List.sum_cons, h a (List.mem_cons_self a t),
      ih fun x hx => h x (List.mem_cons_of_mem a hx), zero_add]

theorem list_sum_lt_length (l : List ℚ) (hne : l ≠ [])
    (h : ∀ x ∈ l, x < 1) : l.sum < (l.length : ℚ) := by
  induction l with
  | nil => exact absurd rfl hne
  | cons a t ih =>
    have h1 : a < 1 := h a (List.mem_cons_self a t)
    cases t with
    | nil => simpa using h1
    | cons b u =>
      have h2 : (b :: u).sum < ((b :: u).length : ℚ) :=
        ih (by simp) fun x hx => h x (List.mem_cons_of_mem a hx)
      rw [List.sum_cons, List.length_cons]
      push_cast
      push_cast at h2
      linarith


theorem list_sum_map_const {α : Type} (l : List α) (c : ℕ) :
    (l.map fun _ => c).sum = l.length * c := by
  induction l with
  | nil => simp
  | cons a t ih =>
    simp only [List.map_cons, List.sum_cons, List.length_cons, ih]
    ring

theorem length_allIndices (s : List ℕ) : (allIndices s).length = numel s := by
  induction s with
  | nil => rfl
  | cons n rest ih =>
    show ((List.range n).flatMap fun i => (allIndices rest).map fun ix => i :: ix).length
      = numel (n :: rest)
    rw [List.length_flatMap]
    have h1 : ∀ i ∈ List.range n,
        (List.length ∘ fun i => (allIndices rest).map fun ix => i :: ix) i = numel rest := by
      intro i _
      simp only [Function.comp]
      rw [List.length_map, ih]
    rw [List.map_congr_left h1, list_sum_map_const, List.length_range]
    rfl

theorem list_sum_map_double {α : Type} (l : List α) (g : α → ℚ) :
    (l.map fun a => g a + g a).sum = 2 * (l.map g).sum := by
  induction l with
  | nil => simp
  | cons a t ih =>
    simp only [List.map_cons, List.sum_cons, ih]
    ring

theorem double_flat_sum {α β : Type} (l : List α) (r : List β) (g : α → β → ℚ) :
    (l.flatMap fun i => r.map fun j => g i j + g i j).sum
      = 2 * (l.flatMap fun i => r.map fun j => g i j).sum := by
  induction l with
  | nil => simp
  | cons a t ih =>
    rw [List.flatMap_cons, List.flatMap_cons, List.sum_append, List.sum_append, ih,
      list_sum_map_double]
    ring

theorem nmean_lt_one (v : NArr) (k : ℕ) (hv : v.shape = [k]) (hk : 0 < k)
    (hlt : ∀ ix ∈ allIndices v.shape, v.data ix < 1) : nmean v < 1 := by
  rw [nmean, nsum]
  have hlen : ((allIndices v.shape).map v.data).length = k := by
    rw [List.length_map, length_allIndices, hv]
    simp [numel]
  have hne : (allIndices v.shape).map v.data ≠ [] := by
    intro hc
    rw [hc] at hlen
    simp at hlen
    omega
  have hall : ∀ x ∈ (allIndices v.shape).map v.data, x < 1 := by
    intro x hx
    rw [List.mem_map] at hx
    obtain ⟨ix, hix, rfl⟩ := hx
    exact hlt ix hix
  have hsum := list_sum_lt_length _ hne hall
  rw [hlen] at hsum
  have hnumel : (numel v.shape : ℚ) = (k : ℚ) := by
    rw [hv]
    simp [numel]
  rw [hnumel]
  exact (div_lt_one (by exact_mod_cast hk)).mpr hsum

theorem categorical_dice_stack_ok (mask1 mask2 : NArr) (label_class : ℚ)
    (hs : mask1.shape = mask2.shape) :
    categorical_dice_stack mask1 mask2 label_class = .ok (dice_stack_val
      ⟨mask1.shape, fun ix => (posMaskN mask1 label_class).data (bIndex mask1.shape ix) *
          (posMaskN mask2 label_class).data (bIndex mask2.shape ix)⟩
      ⟨mask1.shape, fun ix => (posMaskN mask1 label_class).data (bIndex mask1.shape ix) +
          (posMaskN mask2 label_class).data (bIndex mask2.shape ix)⟩) := by
  show (match npMul (posMaskN mask1 label_class) (posMaskN mask2 label_class),
        npAdd (posMaskN mask1 label_class) (posMaskN mask2 label_class) with
    | .ok inter, .ok tot => Except.ok (dice_stack_val inter tot)
    | .error e, _ => .error e
    | _, .error e => .error e) = _
  rw [npMul, npAdd,
    npBinop_self (fun a b => a * b) (posMaskN mask1 label_class) (posMaskN mask2 label_class) hs,
    npBinop_self (fun a b => a + b) (posMaskN mask1 label_class) (posMaskN mask2 label_class) hs]
  rfl


theorem listMean_zero (l : List ℚ) (h : ∀ x ∈ l, x = 0) : listMean l = 0 := by
  rw [listMean, list_sum_zero l h, zero_div]

theorem fd_const (f : ℕ → ℚ) (q : ℚ) (hf : ∀ k, f k = q) (size i : ℕ) : fd f size i = 0 := by
  rw [fd]
  by_cases h0 : i = 0
  · rw [if_pos h0, hf, hf, sub_self]
  · rw [if_neg h0]
    by_cases h1 : i = size - 1
    · rw [if_pos h1, hf, hf, sub_self]
    · rw [if_neg h1, hf, hf, sub_self, zero_div]

theorem bAxisB_isSome_iff (a b : ℕ) : (bAxisB a b).isSome = true ↔ bcompatAx a b := by
  rw [bAxisB, bcompatAx]
  by_cases h1 : a = b
  · simp [h1]
  · rw [if_neg h1]
    by_cases h2 : a = 1
    · rw [if_pos h2]
      simp [h1, h2]
    · rw [if_neg h2]
      by_cases h3 : b = 1
      · rw [if_pos h3]
        simp [h1, h2, h3]
      · rw [if_neg h3]
        simp [h1, h2, h3]

theorem bShapeRev_isSome_iff (s : List ℕ) : ∀ t : List ℕ,
    (bShapeRev s t).isSome = true ↔
      ∀ k < max s.length t.length, bcompatAx (s.getD k 1) (t.getD k 1) := by
  induction s with
  | nil =>
    intro t
    cases t with
    | nil => simp [bShapeRev]
    | cons b t =>
      simp only [bShapeRev, Option.isSome_some]
      constructor
      · intro _ k hk
        exact Or.inr (Or.inl rfl)
      · intro _
        trivial
  | cons a s ih =>
    intro t
    cases t with
    | nil =>
      simp only [bShapeRev, Option.isSome_some]
      constructor
      · intro _ k hk
        exact Or.inr (Or.inr rfl)
      · intro _
        trivial
    | cons b t =>
      have hsplit : (bShapeRev (a :: s) (b :: t)).isSome = true ↔
          (bAxisB a b).isSome = true ∧ (bShapeRev s t).isSome = true := by
        rw [bShapeRev]
        cases hA : bAxisB a b with
        | none => simp
        | some c =>
          cases hB : bShapeRev s t with
          | none => simp
          | some r => simp
      rw [hsplit, bAxisB_isSome_iff, ih t]
      constructor
      · rintro ⟨hab, hrest⟩ k hk
        cases k with
        | zero => exact hab
        | succ k =>
          apply hrest
          simp only [List.length_cons] at hk
          omega
      · intro hall
        refine ⟨hall 0 (by simp), fun k hk => ?_⟩
        have hh := hall (k + 1) (by simp only [List.length_cons]; omega)
        exact hh

theorem calculate_aee_okB (x y : NArr) :
    okB (calculate_aee x y) = (bShape x.shape y.shape).isSome := by
  rw [calculate_aee, npSub, npBinop]
  cases h : bShape x.shape y.shape with
  | some s => rfl
  | none => rfl

theorem calculate_rmse_dvf_okB (x y : NArr) :
    okB (calculate_rmse_dvf x y) = (bShape x.shape y.shape).isSome := by
  rw [calculate_rmse_dvf, npSub, npBinop]
  cases h : bShape x.shape y.shape with
  | some s => rfl
  | none => rfl

theorem bShape_isSome (s t : List ℕ) :
    (bShape s t).isSome = (bShapeRev s.reverse t.reverse).isSome := by
  rw [bShape]
  cases h : bShapeRev s.reverse t.reverse with
  | some r => rfl
  | none => rfl

theorem dvf_metrics_fn_on_mdC6 :
    dvf_metrics_fn mdC6 = .ok
      [("aee", 0), ("rmse_dvf", 0), ("folding_ratio", 0), ("mean_negative_detJ", 0)] := by
  have hjm : calculate_jacobian_metrics dvfZ = (0, 0) := by
    norm_num [calculate_jacobian_metrics, calculate_jacobian_det, fd, listMean, range_one,
      range_two, dvfZ]
  have haee : calculate_aee dvfZ dvfZ = .ok 0 := by
    rw [calculate_aee, npSub, npBinop]
    have hb : bShape [1, 2, 2, 2] [1, 2, 2, 2] = some [1, 2, 2, 2] := by decide
    simp only [dvfZ, hb]
    simp only [nmean, nsum, nmap, sumAxis1, allIndices, numel, range_one, range_two]
    norm_num [ratSqrt_zero]
  have hrmse : calculate_rmse_dvf dvfZ dvfZ = .ok 0 := by
    rw [calculate_rmse_dvf, npSub, npBinop]
    have hb : bShape [1, 2, 2, 2] [1, 2, 2, 2] = some [1, 2, 2, 2] := by decide
    simp only [dvfZ, hb]
    simp only [nmean, nsum, nmap, sumAxis1, allIndices, numel, range_one, range_two]
    norm_num [ratSqrt_zero]
  show (match getKey mdC6.dvf_pred "dvf_pred", getKey mdC6.dvf_gt "dvf_gt" with
    | .ok dvf_pred, .ok dvf_gt =>
      match mdC6.roi_mask with
      | some roi_mask =>
        let bb := bbox_from_mask (selectAxis1Zero roi_mask)
        match npMul dvf_pred roi_mask, npMul dvf_gt roi_mask with
        | .ok mp, .ok mg => dvf_metrics_core (bbox_crop mp bb.1) (bbox_crop mg bb.1)
        | .error e, _ => .error e
        | _, .error e => .error e
      | none => dvf_metrics_core dvf_pred dvf_gt
    | .error e, _ => .error e
    | _, .error e => .error e) = _
  show dvf_metrics_core dvfZ dvfZ = _
  rw [dvf_metrics_core, hjm, haee, hrmse]

theorem contourStackLoop_eq (dx : ℚ) (pairs : List (List (List ℕ) × List (List ℕ))) :
    contourStackLoop dx pairs =
      ((pairs.filter fun p => decide (0 < sliceSum p.1) && decide (0 < sliceSum p.2)).map
          (fun p => (contour_distances_2d p.1 p.2 dx).1),
       (pairs.filter fun p => decide (0 < sliceSum p.1) && decide (0 < sliceSum p.2)).map
          (fun p => (contour_distances_2d p.1 p.2 dx).2)) := by
  induction pairs with
  | nil => rfl
  | cons hd rest ih =>
    obtain ⟨s1, s2⟩ := hd
    rw [contourStackLoop, ih]
    by_cases hc : 0 < sliceSum s1 ∧ 0 < sliceSum s2
    · rw [if_pos hc]
      simp only [List.filter_cons, Bool.and_eq_true, decide_eq_true_eq]
      rw [if_pos hc]
      simp
    · rw [if_neg hc]
      simp only [List.filter_cons, Bool.and_eq_true, decide_eq_true_eq]
      rw [if_neg hc]

theorem foldl_max_lt (l : List ℕ) (b : ℕ) : ∀ a, a < b → (∀ x ∈ l, x < b) → l.foldl max a < b := by
  induction l with
  | nil =>
    intro a ha _
    simpa using ha
  | cons c cs ih =>
    intro a ha hl
    rw [List.foldl_cons]
    apply ih
    · exact max_lt ha (hl c (List.mem_cons_self c cs))
    · exact fun x hx => hl x (List.mem_cons_of_mem c hx)

theorem axisRange_le (coords : List ℕ) (size : ℕ) (h : ∀ c ∈ coords, c < size) :
    (axisRange coords size).2 ≤ size := by
  cases coords with
  | nil => exact le_refl size
  | cons c cs =>
    show cs.foldl max c + 1 ≤ size
    have := foldl_max_lt cs size c (h c (List.mem_cons_self c cs))
      (fun x hx => h x (List.mem_cons_of_mem c hx))
    omega

theorem forall2_getD_lt (ix s : List ℕ) (h : List.Forall₂ (fun i n => i < n) ix s) :
    ∀ k < s.length, ix.getD k 0 < s.getD k 0 := by
  induction h with
  | nil =>
    intro k hk
    simp at hk
  | cons hab hf ih =>
    intro k hk
    cases k with
    | zero => simpa using hab
    | succ k =>
      rw [List.getD_cons_succ, List.getD_cons_succ]
      apply ih
      simp only [List.length_cons] at hk
      omega

theorem bbox_from_mask_bounds (mask : NArr) (m0 : ℕ) (msp : List ℕ)
    (hm : mask.shape = m0 :: msp) :
    (bbox_from_mask mask).1.length = msp.length ∧
      ∀ k < msp.length, ((bbox_from_mask mask).1.getD k (0, 0)).2 ≤ msp.getD k 0 := by
  have h1 : (bbox_from_mask mask).1 = msp.mapIdx fun k size =>
      axisRange (((allIndices mask.shape).filter fun ix => decide (mask.data ix ≠ 0)).map
        fun ix => ix.getD (k + 1) 0) size := by
    simp only [bbox_from_mask]
    rw [hm]
    rfl
  rw [h1]
  constructor
  · simp
  · intro k hk
    have hget : (msp.mapIdx fun k size =>
        axisRange (((allIndices mask.shape).filter fun ix => decide (mask.data ix ≠ 0)).map
          fun ix => ix.getD (k + 1) 0) size).getD k (0, 0)
        = axisRange (((allIndices mask.shape).filter fun ix => decide (mask.data ix ≠ 0)).map
          fun ix => ix.getD (k + 1) 0) (msp.getD k 0) := by
      rw [List.getD_eq_getElem _ _ (by simpa using hk), List.getElem_mapIdx,
        List.getD_eq_getElem _ _ hk]
    rw [hget]
    apply axisRange_le
    intro c hc
    rw [List.mem_map] at hc
    obtain ⟨ix, hix, rfl⟩ := hc
    have hixm : ix ∈ allIndices mask.shape := List.mem_of_mem_filter hix
    have hfa := (mem_allIndices _ _).mp hixm
    rw [hm] at hfa
    have hlt := forall2_getD_lt ix (m0 :: msp) hfa (k + 1)
      (by simp only [List.length_cons]; omega)
    simpa using hlt

theorem crop_tail_forall2 : ∀ (box : List (ℕ × ℕ)) (sp tl : List ℕ),
    box.length = sp.length →
    (∀ k < sp.length, (box.getD k (0, 0)).2 ≤ sp.getD k 0) →
    List.Forall₂ (fun i n => i < n) tl (box.map fun p => p.2 - p.1) →
    List.Forall₂ (fun i n => i < n) ((box.zip tl).map fun p => p.2 + p.1.1) sp := by
  intro box
  induction box with
  | nil =>
    intro sp tl hlen hb hf
    have hsp : sp = [] := by
      cases sp with
      | nil => rfl
      | cons a u => simp at hlen
    subst hsp
    simp
  | cons pe bx ih =>
    intro sp tl hlen hb hf
    cases sp with
    | nil => simp at hlen
    | cons sz sp2 =>
      rw [List.map_cons, List.forall₂_cons_right_iff] at hf
      obtain ⟨t, tl2, ht, hf2, rfl⟩ := hf
      rw [List.zip_cons_cons, List.map_cons]
      apply List.Forall₂.cons
      · have hb0 := hb 0 (by simp)
        rw [List.getD_cons_zero] at hb0
        rw [List.getD_cons_zero] at hb0
        have ht2 : t < pe.2 - pe.1 := ht
        show t + pe.1 < sz
        omega
      · apply ih sp2 tl2 (by simpa using hlen) ?_ hf2
        intro k hk
        have hbk := hb (k + 1) (by simp only [List.length_cons]; omega)
        rw [List.getD_cons_succ, List.getD_cons_succ] at hbk
        exact hbk

theorem crop_index_mem (x : NArr) (n0 : ℕ) (sp : List ℕ) (box : List (ℕ × ℕ))
    (hx : x.shape = n0 :: 1 :: sp)
    (hlen : box.length = sp.length)
    (hbound : ∀ k < sp.length, (box.getD k (0, 0)).2 ≤ sp.getD k 0)
    (ix : List ℕ) (hix : ix ∈ allIndices (bbox_crop x box).shape) :
    cropMap box ix ∈ allIndices (n0 :: 1 :: sp) := by
  rw [mem_allIndices] at hix ⊢
  have hsh : (bbox_crop x box).shape = n0 :: 1 :: box.map (fun p => p.2 - p.1) := by
    show x.shape.take 2 ++ box.map (fun p => p.2 - p.1) = _
    rw [hx]
    rfl
  rw [hsh] at hix
  rw [List.forall₂_cons_right_iff] at hix
  obtain ⟨i0, tl0, h0, hix2, rfl⟩ := hix
  rw [List.forall₂_cons_right_iff] at hix2
  obtain ⟨i1, tl, h1, hix3, rfl⟩ := hix2
  show List.Forall₂ (fun i n => i < n)
    (cropMap box (i0 :: i1 :: tl)) (n0 :: 1 :: sp)
  show List.Forall₂ (fun i n => i < n) (i0 :: i1 :: (box.zip tl).map fun p => p.2 + p.1.1)
    (n0 :: 1 :: sp)
  exact List.Forall₂.cons h0 (List.Forall₂.cons h1 (crop_tail_forall2 box sp tl hlen hbound hix3))

theorem calculate_rmse_congr (a b a2 b2 : NArr)
    (hsa : a.shape = a2.shape) (hsb : b.shape = b2.shape) (hab : a.shape = b.shape)
    (hda : ∀ ix ∈ allIndices a.shape, a.data ix = a2.data ix)
    (hdb : ∀ ix ∈ allIndices b.shape, b.data ix = b2.data ix) :
    calculate_rmse a b = calculate_rmse a2 b2 := by
  rw [calculate_rmse, calculate_rmse, npSub, npSub, npBinop_self _ a b hab,
    npBinop_self _ a2 b2 (by rw [← hsa, ← hsb]; exact hab)]
  show Except.ok (ratSqrt (nmean (nmap (fun q => q ^ 2)
      ⟨a.shape, fun ix => a.data (bIndex a.shape ix) - b.data (bIndex b.shape ix)⟩)))
    = Except.ok (ratSqrt (nmean (nmap (fun q => q ^ 2)
      ⟨a2.shape, fun ix => a2.data (bIndex a2.shape ix) - b2.data (bIndex b2.shape ix)⟩)))
  rw [← hsa, ← hsb]
  apply congrArg
  apply congrArg
  rw [nmean, nmean]
  congr 1
  apply nsum_congr (nmap (fun q => q ^ 2)
      ⟨a.shape, fun ix => a.data (bIndex a.shape ix) - b.data (bIndex b.shape ix)⟩)
    (nmap (fun q => q ^ 2)
      ⟨a.shape, fun ix => a2.data (bIndex a.shape ix) - b2.data (bIndex b.shape ix)⟩) rfl
  intro ix hix
  have hixa : ix ∈ allIndices a.shape := hix
  have hfa := (mem_allIndices _ _).mp hixa
  have hb1 : bIndex a.shape ix = ix := bIndex_self _ _ hfa
  have hb2 : bIndex b.shape ix = ix := by
    rw [← hab]
    exact hb1
  have hixb : ix ∈ allIndices b.shape := by
    rw [← hab]
    exact hixa
  show (a.data (bIndex a.shape ix) - b.data (bIndex b.shape ix)) ^ 2
    = (a2.data (bIndex a.shape ix) - b2.data (bIndex b.shape ix)) ^ 2
  rw [hb1, hb2, hda ix hixa, hdb ix hixb]

/-! Claim theorems. -/

/-- C4: for the displacement field of shape `(1, 2, 4, 4)` equal to the
ground truth except at one grid point, where the difference vector has
magnitude 3, `calculate_aee` returns exactly `3/16` (the mean over the 16
grid points of the per-point norm) and `calculate_rmse_dvf` returns exactly
`sqrt(9/16) = 3/4` (root taken after averaging the squared norms). -/
theorem C4_aee_rmse_scenario :
    calculate_aee dvfP4 dvfG4 = .ok (3 / 16) ∧
      calculate_rmse_dvf dvfP4 dvfG4 = .ok (3 / 4) := by
  have hb : bShape [1, 2, 4, 4] [1, 2, 4, 4] = some [1, 2, 4, 4] := by decide
  constructor
  · rw [calculate_aee, npSub, npBinop]
    simp only [dvfP4, dvfG4, hb]
    simp only [nmean, nsum, nmap, sumAxis1, allIndices, numel, range_one, range_two, range_four]
    norm_num [bIndex, ratSqrt_zero, ratSqrt_nine]
  · rw [calculate_rmse_dvf, npSub, npBinop]
    simp only [dvfP4, dvfG4, hb]
    simp only [nmean, nsum, nmap, sumAxis1, allIndices, numel, range_one, range_two, range_four]
    norm_num [bIndex, ratSqrt_zero, ratSqrt_nine]
    rw [show (9 / 16 : ℚ) = (3 / 4) * (3 / 4) by norm_num, ratSqrt_sq _ (by norm_num)]

/-- C3 counterexample: for the non-empty masks `[[1,0,0,0]]` (contour set
`{(0,0)}`) and `[[1,0,0,1]]` (contour set `{(0,0), (3,0)}`) with spacing 1,
the code returns a Hausdorff value of 0 (the directed distance from set 1 to
set 2), while the symmetrized Hausdorff distance of the same contour sets is
9 in the squared representation (distance 3): the returned value is not the
symmetrized distance. -/
theorem C3_counterexample :
    (contour_distances_2d [[1, 0, 0, 0]] [[1, 0, 0, 1]] 1).2 = 0 ∧
      hausdorff_symmetrized_spec (findContours [[1, 0, 0, 0]])
          (findContours [[1, 0, 0, 1]]) * 1 ^ 2 = 9 := by
  have hc1 : findContours [[1, 0, 0, 0]] = [((0 : ℤ), (0 : ℤ))] := by decide
  have hc2 : findContours [[1, 0, 0, 1]] = [((0 : ℤ), (0 : ℤ)), ((3 : ℤ), (0 : ℤ))] := by decide
  constructor
  · simp only [contour_distances_2d, hc1, hc2]
    norm_num [directed_hausdorff, listMaxQ, listMinQ, dist2, min_def]
  · simp only [hc1, hc2, hausdorff_symmetrized_spec]
    norm_num [directed_hausdorff, listMaxQ, listMinQ, dist2, min_def, max_def]

/-- C3 (amended): the Hausdorff value returned by `contour_distances_2d` is
only the directed max-min distance from contour set 1 to contour set 2,
scaled by the spacing; it is bounded above by the symmetrized Hausdorff
distance of the spec and (per the counterexample) can be strictly below it. -/
theorem C3_hausdorff_directed_only (image1 image2 : List (List ℕ)) (dx : ℚ) :
    (contour_distances_2d image1 image2 dx).2
        = directed_hausdorff (findContours image1) (findContours image2) * dx ^ 2 ∧
      (contour_distances_2d image1 image2 dx).2
        ≤ hausdorff_symmetrized_spec (findContours image1) (findContours image2) * dx ^ 2 := by
  refine ⟨rfl, ?_⟩
  exact mul_le_mul_of_nonneg_right (le_max_left _ _) (sq_nonneg dx)

/-- C10: when the label class appears in neither mask, both operands of the
unguarded division of `categorical_dice_volume` are zero — the numerator
`2 * sum(intersection)` and the denominator `sum(pos1) + sum(pos2)` — so the
code evaluates `0/0` (NaN in numpy); no stability constant guards this
denominator, unlike the per-slice variant. -/
theorem C10_dice_volume_unguarded (mask1 mask2 : NArr) (label_class : ℚ)
    (hs : mask1.shape = mask2.shape)
    (h1 : ∀ ix ∈ allIndices mask1.shape, mask1.data ix ≠ label_class)
    (h2 : ∀ ix ∈ allIndices mask2.shape, mask2.data ix ≠ label_class) :
    dice_vol_num mask1 mask2 label_class = .ok 0 ∧
      dice_vol_den mask1 mask2 label_class = 0 := by
  have hz1 : nsum (posMaskN mask1 label_class) = 0 := by
    apply list_sum_zero
    intro v hv
    rw [List.mem_map] at hv
    obtain ⟨ix, hix, rfl⟩ := hv
    exact if_neg (h1 ix hix)
  have hz2 : nsum (posMaskN mask2 label_class) = 0 := by
    apply list_sum_zero
    intro v hv
    rw [List.mem_map] at hv
    obtain ⟨ix, hix, rfl⟩ := hv
    exact if_neg (h2 ix hix)
  constructor
  · rw [dice_vol_num, npMul, npBinop_self (fun a b => a * b)
      (posMaskN mask1 label_class) (posMaskN mask2 label_class) hs]
    have hzi : nsum ⟨(posMaskN mask1 label_class).shape, fun ix =>
        (posMaskN mask1 label_class).data (bIndex (posMaskN mask1 label_class).shape ix) *
          (posMaskN mask2 label_class).data (bIndex (posMaskN mask2 label_class).shape ix)⟩
        = 0 := by
      apply list_sum_zero
      intro v hv
      rw [List.mem_map] at hv
      obtain ⟨ix, hix, rfl⟩ := hv
      have hix1 : ix ∈ allIndices mask1.shape := hix
      have hfa : List.Forall₂ (fun i n => i < n) ix mask1.shape :=
        (mem_allIndices _ _).mp hix1
      have hb1 : bIndex (posMaskN mask1 label_class).shape ix = ix :=
        bIndex_self mask1.shape ix hfa
      have hb2 : bIndex (posMaskN mask2 label_class).shape ix = ix := by
        show bIndex mask2.shape ix = ix
        rw [← hs]
        exact bIndex_self mask1.shape ix hfa
      show (posMaskN mask1 label_class).data (bIndex (posMaskN mask1 label_class).shape ix) *
        (posMaskN mask2 label_class).data (bIndex (posMaskN mask2 label_class).shape ix) = 0
      rw [hb1, hb2]
      have hzero : (posMaskN mask1 label_class).data ix = 0 := if_neg (h1 ix hix1)
      rw [hzero, zero_mul]
    show Except.ok (2 * nsum ⟨(posMaskN mask1 label_class).shape, fun ix =>
        (posMaskN mask1 label_class).data (bIndex (posMaskN mask1 label_class).shape ix) *
          (posMaskN mask2 label_class).data (bIndex (posMaskN mask2 label_class).shape ix)⟩)
      = Except.ok 0
    rw [hzi, mul_zero]
  · rw [dice_vol_den, hz1, hz2, add_zero]

/-- C10 witness: two 1x1x1 all-zero masks and label class 1. -/
theorem C10_witness :
    dice_vol_num mZero3 mZero3 1 = .ok 0 ∧ dice_vol_den mZero3 mZero3 1 = 0 :=
  C10_dice_volume_unguarded mZero3 mZero3 1 rfl (by decide) (by decide)

/-- C8: the volumetric Dice of any mask volume against itself is exactly 1
for every label class present in the volume: the intersection sum equals the
class sum `S`, so the score is `2S / (S + S) = 1` with `S > 0`. -/
theorem C8_dice_volume_self (m : NArr) (label_class : ℚ)
    (hl : ∃ ix ∈ allIndices m.shape, m.data ix = label_class) :
    categorical_dice_volume m m label_class = .ok 1 := by
  have hsq : ∀ ix, (posMaskN m label_class).data ix * (posMaskN m label_class).data ix
      = (posMaskN m label_class).data ix := by
    intro ix
    show (if m.data ix = label_class then (1 : ℚ) else 0) *
      (if m.data ix = label_class then (1 : ℚ) else 0) =
      (if m.data ix = label_class then (1 : ℚ) else 0)
    by_cases h : m.data ix = label_class
    · rw [if_pos h, mul_one]
    · rw [if_neg h, mul_zero]
  have hnum : dice_vol_num m m label_class = .ok (2 * nsum (posMaskN m label_class)) := by
    rw [dice_vol_num, npMul, npBinop_self (fun a b => a * b)
      (posMaskN m label_class) (posMaskN m label_class) rfl]
    have hcongr : nsum ⟨(posMaskN m label_class).shape, fun ix =>
        (posMaskN m label_class).data (bIndex (posMaskN m label_class).shape ix) *
          (posMaskN m label_class).data (bIndex (posMaskN m label_class).shape ix)⟩
        = nsum (posMaskN m label_class) := by
      apply nsum_congr ⟨(posMaskN m label_class).shape, fun ix =>
        (posMaskN m label_class).data (bIndex (posMaskN m label_class).shape ix) *
          (posMaskN m label_class).data (bIndex (posMaskN m label_class).shape ix)⟩
        (posMaskN m label_class) rfl
      intro ix hix
      have hfa : List.Forall₂ (fun i n => i < n) ix m.shape :=
        (mem_allIndices _ _).mp hix
      have hb : bIndex (posMaskN m label_class).shape ix = ix :=
        bIndex_self m.shape ix hfa
      show (posMaskN m label_class).data (bIndex (posMaskN m label_class).shape ix) *
        (posMaskN m label_class).data (bIndex (posMaskN m label_class).shape ix) =
        (posMaskN m label_class).data ix
      rw [hb, hsq ix]
    show Except.ok (2 * nsum ⟨(posMaskN m label_class).shape, fun ix =>
        (posMaskN m label_class).data (bIndex (posMaskN m label_class).shape ix) *
          (posMaskN m label_class).data (bIndex (posMaskN m label_class).shape ix)⟩)
      = Except.ok (2 * nsum (posMaskN m label_class))
    rw [hcongr]
  have hpos : 0 < nsum (posMaskN m label_class) := by
    obtain ⟨ix, hix, hval⟩ := hl
    have hmem : (posMaskN m label_class).data ix ∈
        (allIndices (posMaskN m label_class).shape).map (posMaskN m label_class).data :=
      List.mem_map_of_mem (posMaskN m label_class).data hix
    have hone : (posMaskN m label_class).data ix = 1 := by
      show (if m.data ix = label_class then (1 : ℚ) else 0) = 1
      rw [if_pos hval]
    have hnn : ∀ v ∈ (allIndices (posMaskN m label_class).shape).map
        (posMaskN m label_class).data, 0 ≤ v := by
      intro v hv
      rw [List.mem_map] at hv
      obtain ⟨jx, hjx, rfl⟩ := hv
      show (0 : ℚ) ≤ if m.data jx = label_class then 1 else 0
      by_cases h : m.data jx = label_class
      · rw [if_pos h]; norm_num
      · rw [if_neg h]
    have hle := List.single_le_sum hnn _ hmem
    rw [hone] at hle
    calc (0 : ℚ) < 1 := one_pos
      _ ≤ nsum (posMaskN m label_class) := hle
  rw [categorical_dice_volume, hnum]
  show Except.ok ((2 * nsum (posMaskN m label_class)) / dice_vol_den m m label_class)
    = Except.ok 1
  have hden : dice_vol_den m m label_class = 2 * nsum (posMaskN m label_class) := by
    rw [dice_vol_den]; ring
  rw [hden, div_self (by positivity)]

/-- C8 witness: the 1x1x1 mask with its single voxel labelled 1 has
volumetric self-Dice exactly 1. -/
theorem C8_witness : categorical_dice_volume mStack1 mStack1 1 = .ok 1 :=
  C8_dice_volume_self mStack1 1 (by decide)

/-- C1 counterexample: for the stack with a single 1x1 slice whose only
pixel carries label 1 (so a slice containing the label exists), the
per-slice Dice of the stack against itself is `2/(2 + 1/1000) = 2000/2001`,
which is not 1: the stability constant in the denominator makes exact
self-Dice 1 impossible. -/
theorem C1_counterexample :
    categorical_dice_stack mStack1 mStack1 1 = .ok (2000 / 2001) ∧ (2000 / 2001 : ℚ) ≠ 1 := by
  constructor
  · rw [categorical_dice_stack_ok mStack1 mStack1 1 rfl]
    simp only [Except.ok.injEq]
    norm_num [dice_stack_val, sumAxes01, mStack1, posMaskN, nmean, nsum, numel, allIndices,
      range_one, bIndex]
  · norm_num

/-- C1 (amended): the per-slice Dice of a stack of shape `(h, w, n)` with at
least one slice against itself is strictly below 1 — every slice scores
`2s/(2s + 1/1000) < 1` where `s` is its label-pixel count, so the mean is
below 1 — rather than exactly 1 as the claim states. -/
theorem C1_dice_stack_self_lt_one (m : NArr) (label_class : ℚ) (h w n : ℕ)
    (hs : m.shape = [h, w, n]) (hn : 0 < n) :
    ∃ d, categorical_dice_stack m m label_class = .ok d ∧ d < 1 := by
  rw [categorical_dice_stack_ok m m label_class rfl]
  refine ⟨_, rfl, ?_⟩
  rw [hs]
  have hsq : ∀ jx, (posMaskN m label_class).data jx * (posMaskN m label_class).data jx
      = (posMaskN m label_class).data jx := by
    intro jx
    show (if m.data jx = label_class then (1 : ℚ) else 0) *
      (if m.data jx = label_class then (1 : ℚ) else 0) =
      (if m.data jx = label_class then (1 : ℚ) else 0)
    by_cases hc : m.data jx = label_class
    · rw [if_pos hc, mul_one]
    · rw [if_neg hc, mul_zero]
  have hnn : ∀ jx, 0 ≤ (posMaskN m label_class).data jx := by
    intro jx
    show (0 : ℚ) ≤ if m.data jx = label_class then 1 else 0
    by_cases hc : m.data jx = label_class
    · rw [if_pos hc]; norm_num
    · rw [if_neg hc]
  rw [dice_stack_val]
  apply nmean_lt_one _ n rfl hn
  intro ix hix
  show 2 * ((List.range h).flatMap fun i => (List.range w).map fun j =>
      (posMaskN m label_class).data (bIndex [h, w, n] (i :: j :: ix)) *
        (posMaskN m label_class).data (bIndex [h, w, n] (i :: j :: ix))).sum /
    (((List.range h).flatMap fun i => (List.range w).map fun j =>
      (posMaskN m label_class).data (bIndex [h, w, n] (i :: j :: ix)) +
        (posMaskN m label_class).data (bIndex [h, w, n] (i :: j :: ix))).sum + 1 / 1000) < 1
  simp only [hsq]
  rw [double_flat_sum]
  have hSnn : 0 ≤ ((List.range h).flatMap fun i => (List.range w).map fun j =>
      (posMaskN m label_class).data (bIndex [h, w, n] (i :: j :: ix))).sum := by
    apply List.sum_nonneg
    intro q hq
    rw [List.mem_flatMap] at hq
    obtain ⟨i, hi, hq2⟩ := hq
    rw [List.mem_map] at hq2
    obtain ⟨j, hj, rfl⟩ := hq2
    exact hnn _
  rw [div_lt_one (by linarith)]
  linarith

/-- C1 witness: the amended bound at the concrete one-slice stack. -/
theorem C1_witness : ∃ d, categorical_dice_stack mStack1 mStack1 1 = .ok d ∧ d < 1 :=
  C1_dice_stack_self_lt_one mStack1 1 1 1 1 rfl (by decide)

/-- C7: for every constant-shift displacement field (all grid points of
component `c` hold the same value `v c`, a uniform translation with zero
spatial gradient), the Jacobian determinant field is identically 1, and the
Jacobian metrics return folding ratio 0 and mean gradient magnitude of the
determinant 0. -/
theorem C7_jacobian_constant_shift (dvf : NArr) (v : ℕ → ℚ)
    (hconst : ∀ n c i j : ℕ, dvf.data [n, c, i, j] = v c) :
    (∀ n i j : ℕ, calculate_jacobian_det dvf n i j = 1) ∧
      calculate_jacobian_metrics dvf = (0, 0) := by
  have hdet : ∀ n i j : ℕ, calculate_jacobian_det dvf n i j = 1 := by
    intro n i j
    show (1 + fd (fun k => dvf.data [n, 0, k, j]) (dvf.shape.getD 2 0) i) *
        (1 + fd (fun k => dvf.data [n, 1, i, k]) (dvf.shape.getD 3 0) j) -
        fd (fun k => dvf.data [n, 0, i, k]) (dvf.shape.getD 3 0) j *
        fd (fun k => dvf.data [n, 1, k, j]) (dvf.shape.getD 2 0) i = 1
    rw [fd_const _ (v 0) (fun k => hconst n 0 k j),
      fd_const _ (v 1) (fun k => hconst n 1 i k),
      fd_const _ (v 0) (fun k => hconst n 0 i k),
      fd_const _ (v 1) (fun k => hconst n 1 k j)]
    ring
  refine ⟨hdet, ?_⟩
  simp only [calculate_jacobian_metrics]
  rw [Prod.mk.injEq]
  constructor
  · apply listMean_zero
    intro x hx
    rw [List.mem_map] at hx
    obtain ⟨n, hn, rfl⟩ := hx
    have hz : (((List.range (dvf.shape.getD 2 0)).flatMap fun i =>
        (List.range (dvf.shape.getD 3 0)).map fun j =>
          if calculate_jacobian_det dvf n i j < 0 then (1 : ℚ) else 0)).sum = 0 := by
      apply list_sum_zero
      intro q hq
      rw [List.mem_flatMap] at hq
      obtain ⟨i, hi, hq2⟩ := hq
      rw [List.mem_map] at hq2
      obtain ⟨j, hj, rfl⟩ := hq2
      rw [hdet n i j]
      norm_num
    rw [hz, zero_div]
  · apply listMean_zero
    intro x hx
    rw [List.mem_map] at hx
    obtain ⟨n, hn, rfl⟩ := hx
    have hz1 : (((List.range (dvf.shape.getD 2 0)).flatMap fun i =>
        (List.range (dvf.shape.getD 3 0)).map fun j =>
          |fd (fun k => calculate_jacobian_det dvf n k j) (dvf.shape.getD 2 0) i|)).sum = 0 := by
      apply list_sum_zero
      intro q hq
      rw [List.mem_flatMap] at hq
      obtain ⟨i, hi, hq2⟩ := hq
      rw [List.mem_map] at hq2
      obtain ⟨j, hj, rfl⟩ := hq2
      rw [fd_const _ 1 (fun k => hdet n k j), abs_zero]
    have hz2 : (((List.range (dvf.shape.getD 2 0)).flatMap fun i =>
        (List.range (dvf.shape.getD 3 0)).map fun j =>
          |fd (fun k => calculate_jacobian_det dvf n i k) (dvf.shape.getD 3 0) j|)).sum = 0 := by
      apply list_sum_zero
      intro q hq
      rw [List.mem_flatMap] at hq
      obtain ⟨i, hi, hq2⟩ := hq
      rw [List.mem_map] at hq2
      obtain ⟨j, hj, rfl⟩ := hq2
      rw [fd_const _ 1 (fun k => hdet n i k), abs_zero]
    rw [hz1, hz2, add_zero, zero_div]

/-- C7 witness: the constant field with both components 5 on a
`(1, 2, 2, 2)` grid. -/
theorem C7_witness :
    calculate_jacobian_det dvfC7 0 1 0 = 1 ∧ calculate_jacobian_metrics dvfC7 = (0, 0) :=
  ⟨(C7_jacobian_constant_shift dvfC7 (fun _ => 5) (fun _ _ _ _ => rfl)).1 0 1 0,
   (C7_jacobian_constant_shift dvfC7 (fun _ => 5) (fun _ _ _ _ => rfl)).2⟩

set_option maxHeartbeats 1000000 in
/-- C5 counterexample: the shapes `(1, 2, 1, 1)` and `(1, 2, 4, 4)` are not
identical, yet both `calculate_aee` and `calculate_rmse_dvf` succeed and
return the value 3 — numpy silently broadcasts the size-1 spatial axes
instead of failing with a shape error. -/
theorem C5_counterexample :
    cxA5.shape ≠ cxB5.shape ∧ calculate_aee cxA5 cxB5 = .ok 3 ∧
      calculate_rmse_dvf cxA5 cxB5 = .ok 3 := by
  refine ⟨by decide, ?_, ?_⟩
  · rw [calculate_aee, npSub, npBinop]
    have hb : bShape [1, 2, 1, 1] [1, 2, 4, 4] = some [1, 2, 4, 4] := by decide
    simp only [cxA5, cxB5, hb]
    simp only [nmean, nsum, nmap, sumAxis1, allIndices, numel, range_one, range_two, range_four]
    norm_num [bIndex, ratSqrt_zero, ratSqrt_nine]
  · rw [calculate_rmse_dvf, npSub, npBinop]
    have hb : bShape [1, 2, 1, 1] [1, 2, 4, 4] = some [1, 2, 4, 4] := by decide
    simp only [cxA5, cxB5, hb]
    simp only [nmean, nsum, nmap, sumAxis1, allIndices, numel, range_one, range_two, range_four]
    norm_num [bIndex, ratSqrt_zero, ratSqrt_nine]

/-- C5 (amended): `calculate_aee` and `calculate_rmse_dvf` fail with the
broadcast ValueError exactly when the two shapes are not numpy
broadcast-compatible (some right-aligned axis pair has unequal sizes,
neither of them 1); differing but compatible shapes are silently broadcast
and produce a value. -/
theorem C5_broadcast_characterization (x y : NArr) :
    (okB (calculate_aee x y) = true ↔
      ∀ k < max x.shape.length y.shape.length, bcompatAx (rgetOne x.shape k) (rgetOne y.shape k)) ∧
    (okB (calculate_rmse_dvf x y) = true ↔
      ∀ k < max x.shape.length y.shape.length, bcompatAx (rgetOne x.shape k) (rgetOne y.shape k)) := by
  have hiff := bShapeRev_isSome_iff x.shape.reverse y.shape.reverse
  simp only [List.length_reverse] at hiff
  constructor
  · rw [calculate_aee_okB, bShape_isSome, hiff]
    simp only [rgetOne]
  · rw [calculate_rmse_dvf_okB, bShape_isSome, hiff]
    simp only [rgetOne]

/-- C5 witness: the compatibility characterization applied at the concrete
broadcastable shape pair of the counterexample. -/
theorem C5_witness :
    okB (calculate_aee cxA5 cxB5) = true ∧ okB (calculate_rmse_dvf cxA5 cxB5) = true :=
  ⟨(C5_broadcast_characterization cxA5 cxB5).1.mpr (by decide), (C5_broadcast_characterization cxA5 cxB5).2.mpr (by decide)⟩

/-- C6 counterexample: requesting `["dvf_metrics", "nope"]` on a batch with
DVF arrays invokes the `dvf_metrics` group (its arrays are read and all its
metrics computed — the invocation trace is `["dvf_metrics"]`, not `[]`)
before the unknown name `"nope"` raises its KeyError, contradicting the
claim that the error precedes any array read and any partial computation. -/
theorem C6_counterexample :
    metrics_fn mdC6 ["dvf_metrics", "nope"] =
      (["dvf_metrics"], .error ("KeyError: " ++ "nope")) := by
  have h1 : metric_group_fns "dvf_metrics" = some dvf_metrics_fn := by
    simp [metric_group_fns]
  have h2 : metric_group_fns "nope" = none := by
    simp [metric_group_fns]
  simp only [metrics_fn, h1, h2, dvf_metrics_fn_on_mdC6, Except.map]

/-- C6 (amended): the dispatcher fails with the KeyError of the first
unknown group name in list order; every group listed before it is invoked
first (partial metric computation occurs), though the propagating error
means no result mapping is returned to the caller.  Only when the unknown
name comes first is nothing invoked. -/
theorem C6_dispatch_first_unknown (md : MetricData) (pre : List String) (g : String)
    (gs : List String)
    (hpre : ∀ p ∈ pre, ∃ f, metric_group_fns p = some f ∧ okB (f md) = true)
    (hg : metric_group_fns g = none) :
    metrics_fn md (pre ++ g :: gs) = (pre, .error ("KeyError: " ++ g)) := by
  induction pre with
  | nil =>
    rw [List.nil_append, metrics_fn, hg]
  | cons p ps ih =>
    obtain ⟨f, hf, hok⟩ := hpre p (List.mem_cons_self p ps)
    obtain ⟨r, hr⟩ : ∃ r, f md = .ok r := by
      cases hfe : f md with
      | ok r => exact ⟨r, rfl⟩
      | error e =>
        rw [hfe] at hok
        simp [okB] at hok
    simp only [List.cons_append, metrics_fn, hf, hr, List.append_eq,
      ih fun q hq => hpre q (List.mem_cons_of_mem p hq), Except.map]

/-- C6 witness: the amended statement at the concrete batch, with
`dvf_metrics` preceding the unknown name. -/
theorem C6_witness :
    metrics_fn mdC6 (["dvf_metrics"] ++ "nope" :: []) =
      (["dvf_metrics"], .error ("KeyError: " ++ "nope")) := by
  apply C6_dispatch_first_unknown
  · intro p hp
    rw [List.mem_singleton] at hp
    subst hp
    refine ⟨dvf_metrics_fn, by simp [metric_group_fns], ?_⟩
    rw [dvf_metrics_fn_on_mdC6]
    rfl
  · simp [metric_group_fns]

/-- C9: the stack-level contour-distance operation fails with the
ShapeMismatch assertion when the two stacks have different slice counts;
with equal slice counts it computes the slice-level contour distances on
exactly the paired slices whose masked versions are both non-empty for the
target label (slices where either mask is empty are skipped) and returns the
means of the two metrics over exactly those slices. -/
theorem C9_contour_stack (stack1 stack2 : List (List (List ℕ))) (label_class : ℕ) (dx : ℚ) :
    (stack1.length ≠ stack2.length →
      contour_distances_stack stack1 stack2 label_class dx =
        .error "Contour dist error: two stacks has different number of slices") ∧
    (stack1.length = stack2.length →
      contour_distances_stack stack1 stack2 label_class dx =
        .ok (listMean ((((stack1.map (maskByClass label_class)).zip
                (stack2.map (maskByClass label_class))).filter fun p =>
                decide (0 < sliceSum p.1) && decide (0 < sliceSum p.2)).map
              fun p => (contour_distances_2d p.1 p.2 dx).1),
             listMean ((((stack1.map (maskByClass label_class)).zip
                (stack2.map (maskByClass label_class))).filter fun p =>
                decide (0 < sliceSum p.1) && decide (0 < sliceSum p.2)).map
              fun p => (contour_distances_2d p.1 p.2 dx).2))) := by
  constructor
  · intro hne
    simp only [contour_distances_stack]
    rw [if_neg hne]
  · intro heq
    simp only [contour_distances_stack]
    rw [if_pos heq, contourStackLoop_eq]

/-- C9 witness: a slice-count mismatch errors; for two 2-slice stacks where
the first stack is empty on the second slice, only the first slice pair
enters the averages. -/
theorem C9_witness :
    contour_distances_stack [[[1]]] [[[1]], [[1]]] 1 1 =
        .error "Contour dist error: two stacks has different number of slices" ∧
      contour_distances_stack [[[1]], [[0]]] [[[1]], [[1]]] 1 1 =
        .ok (listMean [(contour_distances_2d [[1]] [[1]] 1).1],
             listMean [(contour_distances_2d [[1]] [[1]] 1).2]) := by
  constructor
  · exact (C9_contour_stack [[[1]]] [[[1]], [[1]]] 1 1).1 (by decide)
  · have h := (C9_contour_stack [[[1]], [[0]]] [[[1]], [[1]]] 1 1).2 rfl
    rw [h]
    rw [show ((([[[1]], [[0]]].map (maskByClass 1)).zip ([[[1]], [[1]]].map (maskByClass 1))).filter
        fun p => decide (0 < sliceSum p.1) && decide (0 < sliceSum p.2)) = [([[1]], [[1]])]
      from by decide]
    rfl

/-- C2 (amended): with a ROI mask present, `image_metrics_fn` only crops
the images to the mask bounding box — it does not multiply them by the mask,
unlike the displacement metrics.  It agrees with the masking-and-cropping
contract of the spec (`image_metrics_spec`) exactly when multiplying by the
mask is already a no-op on both images (they vanish wherever the mask
does). -/
theorem C2_image_metrics_crop_only (md : MetricData) (img pred roi : NArr) (n0 : ℕ) (sp : List ℕ)
    (ht : md.target = some img) (hp : md.target_pred = some pred)
    (hr : md.roi_mask = some roi)
    (hsi : img.shape = n0 :: 1 :: sp) (hsp : pred.shape = n0 :: 1 :: sp)
    (hsr : roi.shape = n0 :: 1 :: sp)
    (hmi : ∀ ix ∈ allIndices (n0 :: 1 :: sp), img.data ix * roi.data ix = img.data ix)
    (hmp : ∀ ix ∈ allIndices (n0 :: 1 :: sp), pred.data ix * roi.data ix = pred.data ix) :
    image_metrics_fn md = image_metrics_spec md := by
  have hmsk : (selectAxis1Zero roi).shape = n0 :: sp := by
    simp only [selectAxis1Zero]
    rw [hsr]
  have hbb := bbox_from_mask_bounds (selectAxis1Zero roi) n0 sp hmsk
  have hmul_i := npBinop_self (fun a b => a * b) img roi (by rw [hsi, hsr])
  have hmul_p := npBinop_self (fun a b => a * b) pred roi (by rw [hsp, hsr])
  have hdata : ∀ (x : NArr), x.shape = n0 :: 1 :: sp →
      (∀ ix ∈ allIndices (n0 :: 1 :: sp), x.data ix * roi.data ix = x.data ix) →
      ∀ ix ∈ allIndices (bbox_crop x (bbox_from_mask (selectAxis1Zero roi)).1).shape,
        (bbox_crop x (bbox_from_mask (selectAxis1Zero roi)).1).data ix =
        (bbox_crop ⟨x.shape, fun jx => x.data (bIndex x.shape jx) * roi.data (bIndex roi.shape jx)⟩
          (bbox_from_mask (selectAxis1Zero roi)).1).data ix := by
    intro x hx hnoop ix hix
    have hmem := crop_index_mem x n0 sp (bbox_from_mask (selectAxis1Zero roi)).1 hx
      hbb.1 hbb.2 ix hix
    have hfa := (mem_allIndices _ _).mp hmem
    show x.data (cropMap (bbox_from_mask (selectAxis1Zero roi)).1 ix)
      = x.data (bIndex x.shape (cropMap (bbox_from_mask (selectAxis1Zero roi)).1 ix)) *
        roi.data (bIndex roi.shape (cropMap (bbox_from_mask (selectAxis1Zero roi)).1 ix))
    have hbx : bIndex x.shape (cropMap (bbox_from_mask (selectAxis1Zero roi)).1 ix)
        = cropMap (bbox_from_mask (selectAxis1Zero roi)).1 ix := by
      rw [hx]
      exact bIndex_self _ _ hfa
    have hbr : bIndex roi.shape (cropMap (bbox_from_mask (selectAxis1Zero roi)).1 ix)
        = cropMap (bbox_from_mask (selectAxis1Zero roi)).1 ix := by
      rw [hsr]
      exact bIndex_self _ _ hfa
    rw [hbx, hbr, hnoop _ hmem]
  have hrmse : calculate_rmse (bbox_crop img (bbox_from_mask (selectAxis1Zero roi)).1)
      (bbox_crop pred (bbox_from_mask (selectAxis1Zero roi)).1)
      = calculate_rmse
        (bbox_crop ⟨img.shape, fun jx => img.data (bIndex img.shape jx) *
            roi.data (bIndex roi.shape jx)⟩ (bbox_from_mask (selectAxis1Zero roi)).1)
        (bbox_crop ⟨pred.shape, fun jx => pred.data (bIndex pred.shape jx) *
            roi.data (bIndex roi.shape jx)⟩ (bbox_from_mask (selectAxis1Zero roi)).1) := by
    apply calculate_rmse_congr
    · rfl
    · rfl
    · show img.shape.take 2 ++ _ = pred.shape.take 2 ++ _
      rw [hsi, hsp]
    · exact hdata img hsi hmi
    · exact hdata pred hsp hmp
  simp only [image_metrics_fn, image_metrics_spec, ht, hp, hr, getKey]
  simp only [npMul]
  rw [hmul_i, hmul_p, hrmse]

set_option maxHeartbeats 2000000 in
/-- C2 counterexample: for the batch whose ROI mask covers voxels 0 and 3 of
four (bounding box = full extent, an interior gap at voxels 1 and 2) and
whose target has intensity 6 inside the gap, `image_metrics_fn` returns
RMSE 3 (it only crops, so the gap voxel contributes), while the
mask-then-crop contract of the spec gives RMSE 0: the masking step is
missing from the code. -/
theorem C2_counterexample :
    image_metrics_fn mdC2 = .ok [("rmse", 3)] ∧ image_metrics_spec mdC2 = .ok [("rmse", 0)] := by
  have hbox : (bbox_from_mask (selectAxis1Zero roiC2)).1 = [(0, 4)] := by decide
  constructor
  · show (match calculate_rmse (bbox_crop imgC2 (bbox_from_mask (selectAxis1Zero roiC2)).1)
        (bbox_crop predC2 (bbox_from_mask (selectAxis1Zero roiC2)).1) with
      | .ok v => Except.ok [("rmse", v)]
      | .error e => Except.error e) = _
    rw [hbox]
    have hv : calculate_rmse (bbox_crop imgC2 [(0, 4)]) (bbox_crop predC2 [(0, 4)]) = .ok 3 := by
      rw [calculate_rmse, npSub, npBinop]
      have hb : bShape (bbox_crop imgC2 [(0, 4)]).shape (bbox_crop predC2 [(0, 4)]).shape
          = some [1, 1, 4] := by decide
      rw [hb]
      simp only [bbox_crop, cropMap, imgC2, predC2, nmean, nsum, nmap, allIndices, numel,
        range_one, range_four]
      norm_num [bIndex, ratSqrt_nine]
    rw [hv]
  · show (match npMul imgC2 roiC2, npMul predC2 roiC2 with
      | .ok mi, .ok mp =>
        (match calculate_rmse (bbox_crop mi (bbox_from_mask (selectAxis1Zero roiC2)).1)
            (bbox_crop mp (bbox_from_mask (selectAxis1Zero roiC2)).1) with
        | .ok v => Except.ok [("rmse", v)]
        | .error e => Except.error e)
      | .error e, _ => .error e
      | _, .error e => .error e) = _
    rw [npMul, npMul, npBinop_self (fun a b => a * b) imgC2 roiC2 rfl,
      npBinop_self (fun a b => a * b) predC2 roiC2 rfl]
    show (match calculate_rmse
        (bbox_crop ⟨imgC2.shape, fun ix => imgC2.data (bIndex imgC2.shape ix) *
          roiC2.data (bIndex roiC2.shape ix)⟩ (bbox_from_mask (selectAxis1Zero roiC2)).1)
        (bbox_crop ⟨predC2.shape, fun ix => predC2.data (bIndex predC2.shape ix) *
          roiC2.data (bIndex roiC2.shape ix)⟩ (bbox_from_mask (selectAxis1Zero roiC2)).1) with
      | .ok v => Except.ok [("rmse", v)]
      | .error e => Except.error e) = _
    rw [hbox]
    have hv : calculate_rmse
        (bbox_crop ⟨imgC2.shape, fun ix => imgC2.data (bIndex imgC2.shape ix) *
          roiC2.data (bIndex roiC2.shape ix)⟩ [(0, 4)])
        (bbox_crop ⟨predC2.shape, fun ix => predC2.data (bIndex predC2.shape ix) *
          roiC2.data (bIndex roiC2.shape ix)⟩ [(0, 4)]) = .ok 0 := by
      rw [calculate_rmse, npSub, npBinop]
      have hb : bShape (bbox_crop ⟨imgC2.shape, fun ix => imgC2.data (bIndex imgC2.shape ix) *
          roiC2.data (bIndex roiC2.shape ix)⟩ [(0, 4)]).shape
          (bbox_crop ⟨predC2.shape, fun ix => predC2.data (bIndex predC2.shape ix) *
          roiC2.data (bIndex roiC2.shape ix)⟩ [(0, 4)]).shape = some [1, 1, 4] := by decide
      rw [hb]
      simp only [bbox_crop, cropMap, imgC2, predC2, roiC2, nmean, nsum, nmap, allIndices, numel,
        range_one, range_four]
      norm_num [bIndex, ratSqrt_zero]
    rw [hv]

/-- C2 witness: under an all-one ROI mask (masking is a no-op) the code and
the spec contract agree. -/
theorem C2_witness : image_metrics_fn mdW2 = image_metrics_spec mdW2 := by
  apply C2_image_metrics_crop_only mdW2 imgW2 predW2 roiW2 1 [2] rfl rfl rfl rfl rfl rfl
  · intro ix hix
    simp [roiW2]
  · intro ix hix
    simp [roiW2]
